import Mathlib

/-!
Shallow embedding of `aptos-move/framework/src/natives/cryptography/ristretto255.rs`:
the gas-metered Ristretto255 native-function bridge (cost model, value marshalling,
operation catalog) together with the parts of its external collaborators that the
verified properties depend on (the curve library's scalar decoding, the VM value
casts, and the helper macros, each modelled where noted).
-/

namespace Ristretto255

/-! ## Status codes and the two-variant result type

`SafeNativeError` distinguishes the two failure shapes of the bridge: a
user-visible rejection (an abort visible to the calling contract; the concrete
abort codes are abstracted away since no property here depends on them) and an
internal invariant violation carrying a VM status code. -/

inductive StatusCode : Type where
  | INTERNAL_TYPE_ERROR
  | UNKNOWN_INVARIANT_VIOLATION_ERROR
deriving DecidableEq

inductive SafeNativeError : Type where
  | userRejection
  | invariantViolation (status : StatusCode)
deriving DecidableEq

/-- Result type of the bridge's fallible operations, mirroring
`SafeNativeResult<T> = Result<T, SafeNativeError>`. -/
inductive SafeNativeResult (α : Type) : Type where
  | ok (val : α)
  | error (e : SafeNativeError)
deriving DecidableEq

/-! ## Cost model

`GasParameters` is the gas-parameter record of the source file; every field is a
gas quantity, modelled as a natural number (the external gas-algebra crate is out
of scope; gas multiplication is modelled as exact multiplication on `Nat`). -/

structure GasParameters : Type where
  basepoint_mul : Nat
  basepoint_double_mul : Nat
  point_add : Nat
  point_clone : Nat
  point_compress : Nat
  point_decompress : Nat
  point_equals : Nat
  point_from_64_uniform_bytes : Nat
  point_identity : Nat
  point_mul : Nat
  point_double_mul : Nat
  point_neg : Nat
  point_sub : Nat
  point_parse_arg : Nat
  sha512_per_byte : Nat
  sha512_per_hash : Nat
  scalar_add : Nat
  scalar_reduced_from_32_bytes : Nat
  scalar_uniform_from_64_bytes : Nat
  scalar_from_u128 : Nat
  scalar_from_u64 : Nat
  scalar_invert : Nat
  scalar_is_canonical : Nat
  scalar_mul : Nat
  scalar_neg : Nat
  scalar_sub : Nat
  scalar_parse_arg : Nat

/-- Largest value of a 64-bit unsigned integer; a Rust float-to-`u64` cast
saturates at this value. -/
def U64_MAX : Nat := 18446744073709551615

/-- Bounded linear search for the least `k ≥ start` with `2 ^ n ≤ n ^ k`,
used to express the exact value of `(n / log2 n).ceil()` (see `msm_num_args`). -/
def msmSearch (n : Nat) : Nat → Nat → Nat
  | 0, k => k
  | fuel + 1, k => if 2 ^ n ≤ n ^ k then k else msmSearch n fuel (k + 1)

/-- Number of `point_mul` arguments charged for a size-`size` multi-scalar
multiplication, embedding the source expression
`(size as f64 / f64::log2(size as f64)).ceil() as u64` by the exact value of
the formula it implements: for `size ≥ 2` the mathematical ceiling
`⌈size / log2 size⌉`, computed as the least `k` with `2 ^ size ≤ size ^ k`
(proved below). The degenerate sizes follow IEEE-754 semantics: at
`size = 0`, `log2(0.0) = -inf` and `0.0 / -inf = -0.0`, whose ceiling casts
to `0`; at `size = 1`, `log2(1.0) = 0.0` and `1.0 / 0.0 = +inf`, and the
saturating `as u64` cast yields `U64_MAX`.

The program's f64 pipeline computes exactly this value at every size used by
the properties proved below (0, 1, 4, 10, 200, and every power of two up to
`2 ^ 56`), but *not* at every size `n ≥ 2`: the correctly rounded f64
division can cross an integer boundary once one ulp of the quotient exceeds
the quotient's distance to that boundary, so at large sizes the program's
charge can differ from the exact ceiling — see `msm_num_args_f64_pow2` and
the counterexample at size `2 ^ 63`. -/
def msm_num_args (size : Nat) : Nat :=
  if size = 0 then 0
  else if size = 1 then U64_MAX
  else msmSearch size (size + 1) 0

/-- Gas cost of a size-`size` multi-scalar multiplication:
`self.point_mul * NumArgs::new((size as f64 / f64::log2(size as f64)).ceil() as u64)`. -/
def GasParameters.multi_scalar_mul_gas (self : GasParameters) (size : Nat) : Nat :=
  self.point_mul * msm_num_args size

/-- Bounded structural floor-log2: `2 ^ floorLog2 n ≤ n < 2 ^ (floorLog2 n + 1)`
for `n ≥ 1`; the fuel argument makes the recursion structural. -/
def log2fuel : Nat → Nat → Nat
  | 0, _ => 0
  | fuel + 1, n => if 2 ≤ n then log2fuel fuel (n / 2) + 1 else 0

/-- Floor of the base-2 logarithm of a positive natural number. -/
def floorLog2 (n : Nat) : Nat := log2fuel n n

/-- Model of IEEE-754 round-to-nearest, ties to even, in exact integer
arithmetic: for the positive real quotient `a / b` and the granularity (one
ulp) `uNum / uDen`, the number of granularity steps of the rounded value. -/
def roundTiesToEvenCount (a b uNum uDen : Nat) : Nat :=
  let m := a * uDen / (b * uNum)
  let r2 := 2 * (a * uDen - m * (b * uNum))
  if r2 < b * uNum then m
  else if b * uNum < r2 then m + 1
  else if m % 2 = 0 then m else m + 1

/-- Model of an IEEE-754 binary64 division followed by `ceil`, in exact
integer arithmetic: the value of `(x / y).ceil()` where `x / y` is the
correctly rounded binary64 quotient of the exactly representable operands
`a` and `b` (quotient assumed at least 1 and in finite range). One ulp of
the quotient's binade is `2 ^ (e - 52)` where `2 ^ e ≤ a / b < 2 ^ (e + 1)`;
`ceil` on a binary64 value is exact. -/
def f64DivCeil (a b : Nat) : Nat :=
  let e := floorLog2 (a / b)
  if 52 ≤ e then
    let u := 2 ^ (e - 52)
    roundTiesToEvenCount a b u 1 * u
  else
    let d := 2 ^ (52 - e)
    (roundTiesToEvenCount a b 1 d + d - 1) / d

/-- Exactly determined IEEE-754 value of the source expression
`(size as f64 / f64::log2(size as f64)).ceil() as u64` at a power-of-two
size `2 ^ k` with `1 ≤ k ≤ 63`: the `usize → f64` cast of `2 ^ k ≤ 2 ^ 63`
is exact, `f64::log2` returns exactly `k` (the true result is an exactly
representable integer), the division is correctly rounded as IEEE-754
requires, and `ceil` and the in-range `as u64` cast are exact. At these
sizes the program's charge is therefore determined independently of the
platform's `log2` implementation. -/
def msm_num_args_f64_pow2 (k : Nat) : Nat := f64DivCeil (2 ^ k) k

/-! ## Bytes and the external curve library's scalars

Byte sequences are lists over `Fin 256`; a little-endian byte sequence denotes
the natural number `bytesToNat bs`. A curve-library `Scalar` is modelled by the
little-endian value of its 32-byte representation (a natural number `< 2 ^ 255`,
since `Scalar::from_bits` clears the top bit). -/

abbrev Byte : Type := Fin 256

/-- Value of a little-endian byte sequence. -/
def bytesToNat : List Byte → Nat
  | [] => 0
  | b :: rest => b.val + 256 * bytesToNat rest

/-- Little-endian encoding of a value into the given number of bytes. -/
def natToBytes : Nat → Nat → List Byte
  | 0, _ => []
  | len + 1, v => ⟨v % 256, Nat.mod_lt v (by norm_num)⟩ :: natToBytes len (v / 256)

/-- Order of the Ristretto255 scalar field (curve25519 `ℓ`): canonical scalar
encodings are exactly the 32-byte little-endian encodings of values below `L`. -/
def L : Nat := 2 ^ 252 + 27742317777372353535851937790883648493

/-- Model of the external curve library's `Scalar::from_bits`: keeps the raw
bytes but clears the top bit (bit 255), i.e. reduces the value modulo `2 ^ 255`
(the source notes: "This will clear the high bit of 'slice'"). -/
def Scalar.from_bits (slice : List Byte) : Nat := bytesToNat slice % 2 ^ 255

/-- Model of the external curve library's `Scalar::is_canonical`: the held
value is the unique reduced representative, i.e. is below `L`. -/
def Scalar.is_canonical (s : Nat) : Bool := s < L

/-- Model of the external curve library's `Scalar::to_bytes`: the 32-byte
little-endian encoding of the scalar's value. -/
def Scalar.to_bytes (s : Nat) : List Byte := natToBytes 32 s

/-! ## Value marshalling -/

/-- Modelled from the spec: the `safely_assert_eq!` helper macro (defined in the
natives helpers module, which is not part of the given source) compares two
values and, per the spec's error taxonomy for the canonicality double-check,
propagates a user-visible rejection, not an internal violation, when they
differ. -/
def safely_assert_eq (lhs rhs : Bool) : SafeNativeResult Unit :=
  if lhs = rhs then .ok () else .error .userRejection

/-- Modelled from the spec: the `safely_pop_arg!` helper macro (not part of the
given source) pops the last-pushed value off the argument deque; an empty stack
is an internal invariant violation (the VM violated its own stack-shape
contract). The deque's back is the head of the list here, and arguments are
modelled as byte vectors, the only value kind the popped arguments of these
natives can hold. -/
def safely_pop_arg (arguments : List (List Byte)) :
    SafeNativeResult (List Byte × List (List Byte)) :=
  match arguments with
  | [] => .error (.invariantViolation .UNKNOWN_INVARIANT_VIOLATION_ERROR)
  | v :: rest => .ok (v, rest)

/-- Pops a 32 byte slice off the argument stack; a length mismatch is an
internal invariant violation with `INTERNAL_TYPE_ERROR`
(`<[u8; 32]>::try_from(bytes)` failing). State passing replaces the in-place
mutation of the `VecDeque`: the remaining stack is returned alongside. -/
def pop_32_byte_slice (arguments : List (List Byte)) :
    SafeNativeResult (List Byte × List (List Byte)) :=
  match safely_pop_arg arguments with
  | .error e => .error e
  | .ok (bytes, rest) =>
    if bytes.length = 32 then .ok (bytes, rest)
    else .error (.invariantViolation .INTERNAL_TYPE_ERROR)

/-- Pops a 64 byte slice off the argument stack; same shape as
`pop_32_byte_slice` with expected length 64. -/
def pop_64_byte_slice (arguments : List (List Byte)) :
    SafeNativeResult (List Byte × List (List Byte)) :=
  match safely_pop_arg arguments with
  | .error e => .error e
  | .ok (bytes, rest) =>
    if bytes.length = 64 then .ok (bytes, rest)
    else .error (.invariantViolation .INTERNAL_TYPE_ERROR)

/-- Constructs a curve library scalar from bytes assumed to canonically encode
it: length check (`INTERNAL_TYPE_ERROR` invariant violation on mismatch), then
`Scalar::from_bits` (which silently clears the top bit), then the
`safely_assert_eq!(s.is_canonical(), true)` double-check. -/
def scalar_from_valid_bytes (bytes : List Byte) : SafeNativeResult Nat :=
  if bytes.length = 32 then
    let s := Scalar.from_bits bytes
    match safely_assert_eq (Scalar.is_canonical s) true with
    | .ok _ => .ok s
    | .error e => .error e
  else .error (.invariantViolation .INTERNAL_TYPE_ERROR)

/-- Pops a Scalar off the argument stack when the argument was a `vector<u8>`. -/
def pop_scalar_from_bytes (arguments : List (List Byte)) :
    SafeNativeResult (Nat × List (List Byte)) :=
  match safely_pop_arg arguments with
  | .error e => .error e
  | .ok (bytes, rest) =>
    match scalar_from_valid_bytes bytes with
    | .ok s => .ok (s, rest)
    | .error e => .error e

/-! ## Move values and scalar extraction from a struct -/

/-- Host-VM values as far as these natives observe them: raw byte vectors and
structs with positional fields. References collapse to the referenced value
(`borrow_field` + `read_ref` in the source read the field's current value). -/
inductive MoveValue : Type where
  | bytes (bs : List Byte)
  | structV (fields : List MoveValue)

/-- The 'data' field inside a Move Scalar struct is at index 0. -/
def DATA_FIELD_INDEX : Nat := 0

/-- Model of `value_as::<StructRef>`: a cast failure is a `PartialVMError` with
`INTERNAL_TYPE_ERROR`, which `?` converts into an invariant violation. -/
def value_as_struct : MoveValue → SafeNativeResult (List MoveValue)
  | .structV fields => .ok fields
  | _ => .error (.invariantViolation .INTERNAL_TYPE_ERROR)

/-- Model of `borrow_field` followed by `value_as::<Reference>` and `read_ref`:
reads the field at the given index, an out-of-range index being an internal
type error. -/
def borrow_field (fields : List MoveValue) (i : Nat) : SafeNativeResult MoveValue :=
  match fields[i]? with
  | some f => .ok f
  | none => .error (.invariantViolation .INTERNAL_TYPE_ERROR)

/-- Model of `value_as::<Vec<u8>>` on the field's value. -/
def value_as_bytes : MoveValue → SafeNativeResult (List Byte)
  | .bytes bs => .ok bs
  | _ => .error (.invariantViolation .INTERNAL_TYPE_ERROR)

/-- Get a curve library Scalar from a Move Scalar struct: borrow the data field
at `DATA_FIELD_INDEX`, read its bytes, and validate them exactly as the raw
path does. -/
def scalar_from_struct (move_scalar : MoveValue) : SafeNativeResult Nat :=
  match value_as_struct move_scalar with
  | .error e => .error e
  | .ok move_struct =>
    match borrow_field move_struct DATA_FIELD_INDEX with
    | .error e => .error e
    | .ok fieldValue =>
      match value_as_bytes fieldValue with
      | .error e => .error e
      | .ok scalar_bytes => scalar_from_valid_bytes scalar_bytes

/-! ## Operation catalog

`NativeImpl` names the handler function passed to the `make_safe_native` /
`make_test_only_safe_native` wrappers for each catalog entry; since every entry
is wrapped uniformly with the same gas parameters, features and timed features,
two entries bound to the same `NativeImpl` are the same native function.
`make_all` is parameterised by whether the crate's `testing` feature is
compiled in (the `#[cfg(feature = "testing")]` block). -/

inductive NativeImpl : Type where
  | native_scalar_random
  | native_point_is_canonical
  | native_point_identity
  | native_point_decompress
  | native_point_clone
  | native_point_compress
  | native_point_mul
  | native_double_scalar_mul
  | native_point_equals
  | native_point_neg
  | native_point_add
  | native_point_sub
  | native_basepoint_mul
  | native_basepoint_double_mul
  | native_new_point_from_sha512
  | native_new_point_from_64_uniform_bytes
  | safe_native_multi_scalar_mul_no_floating_point
  | native_scalar_is_canonical
  | native_scalar_invert
  | native_scalar_from_sha512
  | native_scalar_mul
  | native_scalar_add
  | native_scalar_sub
  | native_scalar_neg
  | native_scalar_from_u64
  | native_scalar_from_u128
  | native_scalar_reduced_from_32_bytes
  | native_scalar_uniform_from_64_bytes
deriving DecidableEq

/-- Builds the name → handler catalog, in source order: the test-only entry is
appended first (only under the `testing` feature), then the unconditional
entries. `make_module_natives` only repackages the pairs and is dropped. -/
def make_all (testing : Bool) : List (String × NativeImpl) :=
  (if testing then [("random_scalar_internal", NativeImpl.native_scalar_random)] else []) ++
  [("point_is_canonical_internal", NativeImpl.native_point_is_canonical),
   ("point_identity_internal", NativeImpl.native_point_identity),
   ("point_decompress_internal", NativeImpl.native_point_decompress),
   ("point_clone_internal", NativeImpl.native_point_clone),
   ("point_compress_internal", NativeImpl.native_point_compress),
   ("point_mul_internal", NativeImpl.native_point_mul),
   ("point_double_mul_internal", NativeImpl.native_double_scalar_mul),
   ("point_equals", NativeImpl.native_point_equals),
   ("point_neg_internal", NativeImpl.native_point_neg),
   ("point_add_internal", NativeImpl.native_point_add),
   ("point_sub_internal", NativeImpl.native_point_sub),
   ("basepoint_mul_internal", NativeImpl.native_basepoint_mul),
   ("basepoint_double_mul_internal", NativeImpl.native_basepoint_double_mul),
   ("new_point_from_sha512_internal", NativeImpl.native_new_point_from_sha512),
   ("new_point_from_64_uniform_bytes_internal",
     NativeImpl.native_new_point_from_64_uniform_bytes),
   ("double_scalar_mul_internal", NativeImpl.native_double_scalar_mul),
   ("multi_scalar_mul_internal",
     NativeImpl.safe_native_multi_scalar_mul_no_floating_point),
   ("scalar_is_canonical_internal", NativeImpl.native_scalar_is_canonical),
   ("scalar_invert_internal", NativeImpl.native_scalar_invert),
   ("scalar_from_sha512_internal", NativeImpl.native_scalar_from_sha512),
   ("scalar_mul_internal", NativeImpl.native_scalar_mul),
   ("scalar_add_internal", NativeImpl.native_scalar_add),
   ("scalar_sub_internal", NativeImpl.native_scalar_sub),
   ("scalar_neg_internal", NativeImpl.native_scalar_neg),
   ("scalar_from_u64_internal", NativeImpl.native_scalar_from_u64),
   ("scalar_from_u128_internal", NativeImpl.native_scalar_from_u128),
   ("scalar_reduced_from_32_bytes_internal",
     NativeImpl.native_scalar_reduced_from_32_bytes),
   ("scalar_uniform_from_64_bytes_internal",
     NativeImpl.native_scalar_uniform_from_64_bytes)]

/-! ## Helper lemmas -/

/-- Correctness of the bounded search: when some index in range satisfies the
bound, `msmSearch` returns the least satisfying index at or above `start`. -/
lemma msmSearch_spec (n : Nat) (fuel : Nat) : ∀ (start : Nat),
    (∃ m, start ≤ m ∧ m < start + fuel ∧ 2 ^ n ≤ n ^ m) →
    2 ^ n ≤ n ^ msmSearch n fuel start ∧
      start ≤ msmSearch n fuel start ∧
      ∀ j, start ≤ j → j < msmSearch n fuel start → ¬ 2 ^ n ≤ n ^ j := by
  induction fuel with
  | zero =>
    intro start h
    obtain ⟨m, h1, h2, _⟩ := h
    omega
  | succ fuel ih =>
    intro start h
    obtain ⟨m, h1, h2, h3⟩ := h
    by_cases hP : 2 ^ n ≤ n ^ start
    · have heq : msmSearch n (fuel + 1) start = start := by
        simp [msmSearch, hP]
      rw [heq]
      exact ⟨hP, Nat.le_refl _, fun j hj1 hj2 => absurd hj1 (by omega)⟩
    · have heq : msmSearch n (fuel + 1) start = msmSearch n fuel (start + 1) := by
        simp [msmSearch, hP]
      have hm : m ≠ start := fun he => hP (he ▸ h3)
      have hrec := ih (start + 1) ⟨m, by omega, by omega, h3⟩
      rw [heq]
      refine ⟨hrec.1, by omega, fun j hj1 hj2 => ?_⟩
      rcases Nat.eq_or_lt_of_le hj1 with he | hlt
      · exact he ▸ hP
      · exact hrec.2.2 j (by omega) hj2

/-- For `n ≥ 2`, `msm_num_args n` is the least `k` with `2 ^ n ≤ n ^ k`. -/
lemma msm_num_args_least (n : Nat) (hn : 2 ≤ n) :
    2 ^ n ≤ n ^ msm_num_args n ∧ ∀ j, j < msm_num_args n → ¬ 2 ^ n ≤ n ^ j := by
  have hex : ∃ m, 0 ≤ m ∧ m < 0 + (n + 1) ∧ 2 ^ n ≤ n ^ m :=
    ⟨n, Nat.zero_le _, by omega, Nat.pow_le_pow_left hn n⟩
  have h := msmSearch_spec n (n + 1) 0 hex
  have heq : msm_num_args n = msmSearch n (n + 1) 0 := by
    unfold msm_num_args
    rw [if_neg (by omega), if_neg (by omega)]
  rw [heq]
  exact ⟨h.1, fun j hj => h.2.2 j (Nat.zero_le _) hj⟩

/-- Bridge between the integer characterisation and the real-valued formula:
`2 ^ n ≤ n ^ k` exactly when `k` is at least `⌈n / log2 n⌉`. -/
lemma pow_le_iff_ceil_le (n k : Nat) (hn : 2 ≤ n) :
    2 ^ n ≤ n ^ k ↔ ⌈(n : ℝ) / Real.logb 2 (n : ℝ)⌉ ≤ (k : ℤ) := by
  have hn1 : (1 : ℝ) < (n : ℝ) := by
    have h1n : (1 : ℕ) < n := by omega
    exact_mod_cast h1n
  have hnpos : (0 : ℝ) < (n : ℝ) := lt_trans one_pos hn1
  have hlog : 0 < Real.logb 2 (n : ℝ) := Real.logb_pos one_lt_two hn1
  rw [Int.ceil_le]
  push_cast
  rw [div_le_iff₀ hlog]
  constructor
  · intro h
    have hcast : ((2 : ℝ) ^ n ≤ (n : ℝ) ^ k) := by exact_mod_cast h
    have hlb := (Real.logb_le_logb one_lt_two (pow_pos two_pos n) (pow_pos hnpos k)).mpr hcast
    rwa [Real.logb_pow, Real.logb_pow, Real.logb_self_eq_one one_lt_two, mul_one] at hlb
  · intro h
    have hlb : Real.logb 2 ((2 : ℝ) ^ n) ≤ Real.logb 2 ((n : ℝ) ^ k) := by
      rw [Real.logb_pow, Real.logb_pow, Real.logb_self_eq_one one_lt_two, mul_one]
      exact h
    have hcast := (Real.logb_le_logb one_lt_two (pow_pos two_pos n) (pow_pos hnpos k)).mp hlb
    exact_mod_cast hcast

/-- The executable argument count agrees with the spec's closed form
`⌈n / log2 n⌉` for every `n ≥ 2`. -/
lemma msm_num_args_eq_ceil (n : Nat) (hn : 2 ≤ n) :
    (msm_num_args n : ℤ) = ⌈(n : ℝ) / Real.logb 2 (n : ℝ)⌉ := by
  obtain ⟨hP, hmin⟩ := msm_num_args_least n hn
  have hle : ⌈(n : ℝ) / Real.logb 2 (n : ℝ)⌉ ≤ (msm_num_args n : ℤ) :=
    (pow_le_iff_ceil_le n (msm_num_args n) hn).mp hP
  have hge : (msm_num_args n : ℤ) ≤ ⌈(n : ℝ) / Real.logb 2 (n : ℝ)⌉ := by
    by_contra hlt
    push_neg at hlt
    have hn1 : (1 : ℝ) < (n : ℝ) := by
      have h1n : (1 : ℕ) < n := by omega
      exact_mod_cast h1n
    have hlog : 0 < Real.logb 2 (n : ℝ) := Real.logb_pos one_lt_two hn1
    have hpos : (0 : ℝ) < (n : ℝ) / Real.logb 2 (n : ℝ) :=
      div_pos (lt_trans one_pos hn1) hlog
    have hceil1 : 0 < ⌈(n : ℝ) / Real.logb 2 (n : ℝ)⌉ := Int.ceil_pos.mpr hpos
    have hc : ((⌈(n : ℝ) / Real.logb 2 (n : ℝ)⌉.toNat : ℤ)) = ⌈(n : ℝ) / Real.logb 2 (n : ℝ)⌉ :=
      Int.toNat_of_nonneg (by omega)
    have hcs : ⌈(n : ℝ) / Real.logb 2 (n : ℝ)⌉.toNat < msm_num_args n := by omega
    have hpow : 2 ^ n ≤ n ^ (⌈(n : ℝ) / Real.logb 2 (n : ℝ)⌉.toNat) :=
      (pow_le_iff_ceil_le n _ hn).mpr (by rw [hc])
    exact hmin _ hcs hpow
  omega

/-- Ceiling of a real division of naturals, characterised by two integer
bounds on a candidate value. -/
lemma ceil_nat_div (a b c : Nat) (hb : 0 < b) (h1 : a ≤ c * b) (h2 : c * b < a + b) :
    ⌈(a : ℝ) / (b : ℝ)⌉ = (c : ℤ) := by
  have hbR : (0 : ℝ) < (b : ℝ) := by exact_mod_cast hb
  apply le_antisymm
  · rw [Int.ceil_le]
    push_cast
    rw [div_le_iff₀ hbR]
    exact_mod_cast h1
  · have hlt : ((c : ℤ) - 1) < ⌈(a : ℝ) / (b : ℝ)⌉ := by
      rw [Int.lt_ceil]
      push_cast
      rw [lt_div_iff₀ hbR]
      have h2R : (c : ℝ) * b < a + b := by exact_mod_cast h2
      nlinarith [h2R]
    omega

/-- Base-2 logarithm of a power-of-two size. -/
lemma logb_two_pow (k : Nat) : Real.logb 2 (((2 ^ k : Nat) : ℝ)) = (k : ℝ) := by
  push_cast
  rw [Real.logb_pow, Real.logb_self_eq_one one_lt_two, mul_one]

/-- On the determined power-of-two family up to `2 ^ 56`, the f64-computed
charge `msm_num_args_f64_pow2 k` satisfies the two bounds that characterise
the exact ceiling `⌈2 ^ k / k⌉`, checked for every `k`. -/
lemma msm_pow2_bounds : ∀ k, k < 57 → 1 ≤ k →
    2 ^ k ≤ msm_num_args_f64_pow2 k * k ∧
      msm_num_args_f64_pow2 k * k < 2 ^ k + k := by decide

/-- Little-endian decode-then-encode over the byte width is the identity. -/
lemma natToBytes_bytesToNat : ∀ (bs : List Byte), natToBytes bs.length (bytesToNat bs) = bs := by
  intro bs
  induction bs with
  | nil => rfl
  | cons b rest ih =>
    simp only [List.length_cons, bytesToNat, natToBytes]
    congr 1
    · apply Fin.ext
      simp only []
      rw [Nat.add_mul_mod_self_left]
      exact Nat.mod_eq_of_lt b.isLt
    · rw [Nat.add_mul_div_left _ _ (by norm_num : 0 < 256), Nat.div_eq_of_lt b.isLt, Nat.zero_add]
      exact ih

/-- The scalar-field order is below the 255-bit clearing modulus. -/
lemma L_lt_two_pow_255 : L < 2 ^ 255 := by decide

/-- Concrete gas-parameter record with every parameter set to one unit. -/
def onesGasParams : GasParameters :=
  ⟨1, 1, 1, 1, 1, 1, 1, 1, 1, 1, 1, 1, 1, 1, 1, 1, 1, 1, 1, 1, 1, 1, 1, 1, 1, 1, 1⟩

/-- Concrete 32-byte input whose value is `2 ^ 255 + 1`: the top bit is set, so
it is not a canonical scalar encoding, yet clearing the top bit leaves the
canonical value `1`. -/
def bHigh1 : List Byte := (1 : Byte) :: (List.replicate 30 (0 : Byte) ++ [(128 : Byte)])

/-- Concrete 32-byte input whose value is `2 ^ 255 + 2`, non-canonical for the
same reason as `bHigh1`. -/
def bHigh2 : List Byte := (2 : Byte) :: (List.replicate 30 (0 : Byte) ++ [(128 : Byte)])

/-! ## Claim theorems -/

/-- Counterexample to C1 as stated: at size `2 ^ 63` — inside the claim's
range `n ≥ 2`, and a size at which the f64 pipeline is exactly determined —
the program charges `146402730743726592` point multiplications per unit
`point_mul`, while `⌈2 ^ 63 / log2 (2 ^ 63)⌉ = 146402730743726601`: one ulp
of the f64 quotient is 32 there, and the correctly rounded division lands
below the exact quotient, so the cost is not `point_mul * ⌈n / log2 n⌉` at
every `n ≥ 2`. -/
theorem c1_counterexample_f64_rounds_below_ceiling :
    msm_num_args_f64_pow2 63 = 146402730743726592 ∧
    ⌈((2 ^ 63 : Nat) : ℝ) / Real.logb 2 (((2 ^ 63 : Nat) : ℝ))⌉ = (146402730743726601 : ℤ) ∧
    (msm_num_args_f64_pow2 63 : ℤ) ≠
      ⌈((2 ^ 63 : Nat) : ℝ) / Real.logb 2 (((2 ^ 63 : Nat) : ℝ))⌉ := by
  have hval : msm_num_args_f64_pow2 63 = 146402730743726592 := by decide
  have hceil : ⌈((2 ^ 63 : Nat) : ℝ) / Real.logb 2 (((2 ^ 63 : Nat) : ℝ))⌉ =
      (146402730743726601 : ℤ) := by
    rw [logb_two_pow]
    have h := ceil_nat_div (2 ^ 63) 63 146402730743726601 (by norm_num) (by norm_num)
      (by norm_num)
    exact_mod_cast h
  refine ⟨hval, hceil, ?_⟩
  rw [hval, hceil]
  decide

/-- Claim C1 (amended): at every size where the IEEE-754 evaluation of the
source expression is exactly determined and its correctly rounded division
does not cross an integer boundary — in particular at every power-of-two
size `2 ^ k` with `1 ≤ k ≤ 56` — the charged argument count equals the
program's f64 value `msm_num_args_f64_pow2 k` and the gas cost equals
`point_mul * ⌈n / log2 n⌉`; at size `2 ^ 63` the program's charge falls
below that ceiling (see the counterexample). -/
theorem c1_amended_pow2_gas_eq_ceil (p : GasParameters) (k : Nat)
    (h1 : 1 ≤ k) (h2 : k ≤ 56) :
    p.multi_scalar_mul_gas (2 ^ k) = p.point_mul * msm_num_args_f64_pow2 k ∧
    (p.multi_scalar_mul_gas (2 ^ k) : ℤ) =
      (p.point_mul : ℤ) * ⌈((2 ^ k : Nat) : ℝ) / Real.logb 2 (((2 ^ k : Nat) : ℝ))⌉ := by
  obtain ⟨hb1, hb2⟩ := msm_pow2_bounds k (by omega) h1
  have hceil : ⌈((2 ^ k : Nat) : ℝ) / Real.logb 2 (((2 ^ k : Nat) : ℝ))⌉ =
      (msm_num_args_f64_pow2 k : ℤ) := by
    rw [logb_two_pow]
    exact ceil_nat_div (2 ^ k) k (msm_num_args_f64_pow2 k) (by omega) hb1 hb2
  have h2n : 2 ≤ 2 ^ k := by
    have hpow : 2 ^ 1 ≤ 2 ^ k := Nat.pow_le_pow_right (by norm_num) h1
    simpa using hpow
  have hargs : msm_num_args (2 ^ k) = msm_num_args_f64_pow2 k := by
    have heq := msm_num_args_eq_ceil (2 ^ k) h2n
    rw [hceil] at heq
    exact_mod_cast heq
  constructor
  · unfold GasParameters.multi_scalar_mul_gas
    rw [hargs]
  · unfold GasParameters.multi_scalar_mul_gas
    rw [hargs, hceil]
    push_cast
    ring

/-- Witness for amended C1 at `k = 4` (size 16) with unit gas parameters. -/
theorem c1_amended_pow2_gas_eq_ceil_witness :
    1 ≤ 4 ∧ 4 ≤ 56 ∧
      (onesGasParams.multi_scalar_mul_gas (2 ^ 4) =
          onesGasParams.point_mul * msm_num_args_f64_pow2 4 ∧
        (onesGasParams.multi_scalar_mul_gas (2 ^ 4) : ℤ) =
          (onesGasParams.point_mul : ℤ) *
            ⌈((2 ^ 4 : Nat) : ℝ) / Real.logb 2 (((2 ^ 4 : Nat) : ℝ))⌉) :=
  ⟨by norm_num, by norm_num,
    c1_amended_pow2_gas_eq_ceil onesGasParams 4 (by norm_num) (by norm_num)⟩

/-- Counterexample to C2 as stated: the input `bHigh2` (value `2 ^ 255 + 2`) is
a 32-byte non-canonical encoding, yet `scalar_from_valid_bytes` returns `Ok 2`
instead of any rejection — `Scalar::from_bits` silently clears the top bit and
the remaining value is canonical. -/
theorem c2_counterexample_high_bit_silently_accepted :
    bHigh2.length = 32 ∧ ¬ bytesToNat bHigh2 < L ∧
      scalar_from_valid_bytes bHigh2 = .ok 2 := by decide

/-- Claim C2 (amended): for every 32-byte input whose value *after the top-bit
clear performed by `Scalar::from_bits`* is not a canonical scalar,
`scalar_from_valid_bytes` (and hence `pop_scalar_from_bytes` and
`scalar_from_struct`) returns a user-visible rejection, not an internal
invariant violation. Inputs that are non-canonical only because the top bit is
set are silently accepted (see the counterexample). -/
theorem c2_amended_noncanonical_reduced_input_user_rejection (b : List Byte)
    (stack : List (List Byte)) (hlen : b.length = 32)
    (h : L ≤ bytesToNat b % 2 ^ 255) :
    scalar_from_valid_bytes b = .error .userRejection ∧
    pop_scalar_from_bytes (b :: stack) = .error .userRejection ∧
    scalar_from_struct (.structV [.bytes b]) = .error .userRejection := by
  have hcan : Scalar.is_canonical (bytesToNat b % 2 ^ 255) = false :=
    decide_eq_false (not_lt.mpr h)
  have hmain : scalar_from_valid_bytes b = .error .userRejection := by
    unfold scalar_from_valid_bytes safely_assert_eq
    rw [if_pos hlen]
    simp only [Scalar.from_bits, hcan]
    simp
  refine ⟨hmain, ?_, ?_⟩
  · unfold pop_scalar_from_bytes safely_pop_arg
    simp [hmain]
  · unfold scalar_from_struct value_as_struct borrow_field value_as_bytes DATA_FIELD_INDEX
    simp [hmain]

/-- Witness for amended C2 at the encoding of `L + 1`. -/
theorem c2_amended_noncanonical_reduced_input_user_rejection_witness :
    (natToBytes 32 (L + 1)).length = 32 ∧
      L ≤ bytesToNat (natToBytes 32 (L + 1)) % 2 ^ 255 ∧
      (scalar_from_valid_bytes (natToBytes 32 (L + 1)) = .error .userRejection ∧
        pop_scalar_from_bytes (natToBytes 32 (L + 1) :: []) = .error .userRejection ∧
        scalar_from_struct (.structV [.bytes (natToBytes 32 (L + 1))]) =
          .error .userRejection) :=
  ⟨by decide, by decide,
    c2_amended_noncanonical_reduced_input_user_rejection (natToBytes 32 (L + 1)) []
      (by decide) (by decide)⟩

/-- Counterexample to C3 as stated: `bHigh1` (value `2 ^ 255 + 1`) is a
non-canonical 32-byte encoding that `scalar_from_valid_bytes` silently accepts
as the scalar `1`: the out-of-range high bit is cleared before the
canonicality check, so the check cannot see it. -/
theorem c3_counterexample_noncanonical_accepted :
    bHigh1.length = 32 ∧ ¬ bytesToNat bHigh1 < L ∧
      scalar_from_valid_bytes bHigh1 = .ok 1 := by decide

/-- Claim C3 (amended): for every 32-byte input `b` whose value with the top
bit cleared is still not canonical, `scalar_from_valid_bytes b` never returns
`Ok`. The double-check therefore catches every non-canonical input except
those whose only defect is the out-of-range top bit, which the reduction step
silently clears. -/
theorem c3_amended_noncanonical_after_clear_never_ok (b : List Byte)
    (hlen : b.length = 32) (h : L ≤ bytesToNat b % 2 ^ 255) (s : Nat) :
    scalar_from_valid_bytes b ≠ .ok s := by
  have hcan : Scalar.is_canonical (bytesToNat b % 2 ^ 255) = false :=
    decide_eq_false (not_lt.mpr h)
  unfold scalar_from_valid_bytes safely_assert_eq
  rw [if_pos hlen]
  simp only [Scalar.from_bits, hcan]
  simp

/-- Witness for amended C3 at the encoding of `L` itself. -/
theorem c3_amended_noncanonical_after_clear_never_ok_witness :
    (natToBytes 32 L).length = 32 ∧
      L ≤ bytesToNat (natToBytes 32 L) % 2 ^ 255 ∧
      scalar_from_valid_bytes (natToBytes 32 L) ≠ .ok 0 :=
  ⟨by decide, by decide,
    c3_amended_noncanonical_after_clear_never_ok (natToBytes 32 L) (by decide) (by decide) 0⟩

/-- Claim C4: `pop_32_byte_slice` returns `Ok` with the popped bytes exactly
when their length is 32 and otherwise fails with an internal invariant
violation carrying `INTERNAL_TYPE_ERROR` (never a user-visible rejection);
`pop_64_byte_slice` behaves the same with expected length 64. -/
theorem c4_pop_byte_slices_length_check (v : List Byte) (stack : List (List Byte)) :
    pop_32_byte_slice (v :: stack) =
      (if v.length = 32 then .ok (v, stack)
       else .error (.invariantViolation .INTERNAL_TYPE_ERROR)) ∧
    pop_64_byte_slice (v :: stack) =
      (if v.length = 64 then .ok (v, stack)
       else .error (.invariantViolation .INTERNAL_TYPE_ERROR)) :=
  ⟨rfl, rfl⟩

/-- Claim C5: with a positive `point_mul` unit cost, the MSM gas cost at size
200 is strictly greater than at size 10, and at size 4 it is exactly 2 unit
costs (`⌈4 / log2 4⌉ = 2`). -/
theorem c5_msm_gas_monotone_and_size4 (p : GasParameters) (hp : 0 < p.point_mul) :
    p.multi_scalar_mul_gas 4 = 2 * p.point_mul ∧
      p.multi_scalar_mul_gas 10 < p.multi_scalar_mul_gas 200 := by
  have h4 : msm_num_args 4 = 2 := by decide
  have h10 : msm_num_args 10 = 4 := by decide
  have h200 : msm_num_args 200 = 27 := by decide
  unfold GasParameters.multi_scalar_mul_gas
  rw [h4, h10, h200]
  omega

/-- Witness for C5 with unit gas parameters. -/
theorem c5_msm_gas_monotone_and_size4_witness :
    0 < onesGasParams.point_mul ∧
      (onesGasParams.multi_scalar_mul_gas 4 = 2 * onesGasParams.point_mul ∧
        onesGasParams.multi_scalar_mul_gas 10 < onesGasParams.multi_scalar_mul_gas 200) :=
  ⟨by decide, c5_msm_gas_monotone_and_size4 onesGasParams (by decide)⟩

/-- Claim C6: every canonical 32-byte scalar encoding is accepted by
`scalar_from_valid_bytes`, and re-encoding the returned scalar yields exactly
the input bytes. -/
theorem c6_canonical_scalar_roundtrip (b : List Byte) (hlen : b.length = 32)
    (hcanon : bytesToNat b < L) :
    scalar_from_valid_bytes b = .ok (bytesToNat b) ∧
      Scalar.to_bytes (bytesToNat b) = b := by
  have hmod : bytesToNat b % 2 ^ 255 = bytesToNat b :=
    Nat.mod_eq_of_lt (lt_trans hcanon L_lt_two_pow_255)
  constructor
  · unfold scalar_from_valid_bytes safely_assert_eq
    rw [if_pos hlen]
    have hcan : Scalar.is_canonical (bytesToNat b) = true := decide_eq_true hcanon
    simp only [Scalar.from_bits, hmod, hcan, eq_self_iff_true, if_true]
  · unfold Scalar.to_bytes
    rw [← hlen]
    exact natToBytes_bytesToNat b

/-- Witness for C6 at the all-zero encoding (the canonical encoding of 0). -/
theorem c6_canonical_scalar_roundtrip_witness :
    (List.replicate 32 (0 : Byte)).length = 32 ∧
      bytesToNat (List.replicate 32 (0 : Byte)) < L ∧
      (scalar_from_valid_bytes (List.replicate 32 (0 : Byte)) =
          .ok (bytesToNat (List.replicate 32 (0 : Byte))) ∧
        Scalar.to_bytes (bytesToNat (List.replicate 32 (0 : Byte))) =
          List.replicate 32 (0 : Byte)) :=
  ⟨by decide, by decide,
    c6_canonical_scalar_roundtrip (List.replicate 32 (0 : Byte)) (by decide) (by decide)⟩

/-- Claim C7: extracting a scalar from a Move Scalar struct whose single data
field (index 0) holds bytes `b` gives exactly the result of the raw-bytes
validation `scalar_from_valid_bytes b`, and `pop_scalar_from_bytes` applies
that same validation to the popped bytes (same scalar on success, same failure
classification on error). -/
theorem c7_scalar_from_struct_equiv_bytes_path (b : List Byte) (stack : List (List Byte)) :
    scalar_from_struct (.structV [.bytes b]) = scalar_from_valid_bytes b ∧
    pop_scalar_from_bytes (b :: stack) =
      (match scalar_from_valid_bytes b with
       | .ok s => .ok (s, stack)
       | .error e => .error e) :=
  ⟨rfl, rfl⟩

/-- Claim C8: the catalog binds both historical names
`point_double_mul_internal` and `double_scalar_mul_internal` to the very same
handler `native_double_scalar_mul`, in both build configurations. -/
theorem c8_double_scalar_mul_two_names_same_handler :
    (make_all false).lookup "point_double_mul_internal" =
        some NativeImpl.native_double_scalar_mul ∧
    (make_all false).lookup "double_scalar_mul_internal" =
        some NativeImpl.native_double_scalar_mul ∧
    (make_all true).lookup "point_double_mul_internal" =
        some NativeImpl.native_double_scalar_mul ∧
    (make_all true).lookup "double_scalar_mul_internal" =
        some NativeImpl.native_double_scalar_mul := by decide

/-- Claim C9: in a non-testing build the name `random_scalar_internal` is
absent from the catalog, so the test-only randomness operation is unreachable
via dispatch; under the testing feature it is registered. -/
theorem c9_random_scalar_registered_only_when_testing :
    (make_all false).lookup "random_scalar_internal" = none ∧
    (make_all true).lookup "random_scalar_internal" =
      some NativeImpl.native_scalar_random := by decide

/-- Claim C10: `multi_scalar_mul_gas` is total on all sizes; at size 0 the
cost is 0 (the float expression yields negative zero, cast to 0 arguments)
and at size 1 it is `point_mul * (2 ^ 64 - 1)` (the division yields positive
infinity and the saturating cast charges `u64::MAX` arguments). -/
theorem c10_msm_gas_degenerate_sizes (p : GasParameters) :
    p.multi_scalar_mul_gas 0 = 0 ∧
      p.multi_scalar_mul_gas 1 = p.point_mul * (2 ^ 64 - 1) := by
  have h0 : msm_num_args 0 = 0 := by decide
  have h1 : msm_num_args 1 = 2 ^ 64 - 1 := by decide
  unfold GasParameters.multi_scalar_mul_gas
  rw [h0, h1]
  omega

end Ristretto255
